import Mathlib

/-!
Shallow embedding of the CLEH leaderboard service core:
the Redis-backed ranking store (RedisService), the throttled
leaderboard-change pipeline (LeaderboardProcessingService), the batched
persistence queue (BatchSavingService / DatabaseService) and the
WebSocket broadcast hub (WebSocketService), translated from the
TypeScript source.

Scores are validated non-negative integers (Joi schema in
ScoreController), so they are modelled as Nat.  Timestamps handled
arithmetically (throttling) are modelled as Int, matching JS number
subtraction.  The Redis sorted set is modelled as an association list
of (member, score) pairs; its query-time ordering (descending score,
ties in reverse lexicographic member order, as returned by
ZRANGE ... REV) is recovered by sorting.
-/

/-! ## Data model (src/types/index.ts) -/

structure ScoreSubmission where
  player_id : String
  score : Nat
  timestamp : String
deriving DecidableEq, Repr

structure LeaderboardEntry where
  player_id : String
  rank : Nat
  score : Nat
deriving DecidableEq, Repr

structure User where
  id : String
  username : String
deriving DecidableEq, Repr

structure EnhancedLeaderboardEntry where
  player_id : String
  rank : Nat
  score : Nat
  username : String
deriving DecidableEq, Repr

structure LeaderboardUpdate where
  top10 : List LeaderboardEntry
  timestamp : Int
  checksum : String
deriving DecidableEq, Repr

/-! ## Redis sorted-set model (RedisService) -/

/-- The underlying Redis sorted set: an association list of
(member, score) pairs with at most one entry per member. -/
abbrev ZSet := List (String × Nat)

/-- RedisService.addScore: ZADD upserts the member's score. -/
def addScore (board : ZSet) (playerId : String) (score : Nat) : ZSet :=
  board.filter (fun e => e.1 != playerId) ++ [(playerId, score)]

/-- RedisService.removePlayer: ZREM removes the member if present. -/
def removePlayer (board : ZSet) (playerId : String) : ZSet :=
  board.filter (fun e => e.1 != playerId)

/-- Lexicographic byte-wise comparison of member strings, the order
Redis uses for equal-score members (binary comparison of the UTF-8
encodings; on code-point lists this is lexicographic). -/
def charListLt : List Char → List Char → Bool
  | _, [] => false
  | [], _ :: _ => true
  | a :: as, b :: bs =>
    if a < b then true else if b < a then false else charListLt as bs

/-- Strict lexicographic order on members. -/
def memberLt (a b : String) : Bool :=
  charListLt a.data b.data

/-- Non-strict lexicographic order on members. -/
def memberLE (a b : String) : Bool :=
  !(memberLt b a)

/-- Query-time ordering of ZRANGE ... REV: descending score, ties in
reverse (descending) lexicographic order of the member string. -/
def entryRevLE (a b : String × Nat) : Prop :=
  b.2 < a.2 ∨ (b.2 = a.2 ∧ memberLE b.1 a.1 = true)

instance entryRevLE.instDecidableRel : DecidableRel entryRevLE := fun a b => by
  unfold entryRevLE; infer_instance

/-- The sorted view Redis maintains over the set, in the order
ZRANGE ... REV returns it. -/
def revSorted (board : ZSet) : ZSet :=
  board.insertionSort entryRevLE

/-- Redis index-range semantics of ZRANGE start stop (REV): negative
indices count from the end, stop is clamped to the last element, and an
inverted or out-of-range window yields the empty list. -/
def zRangeWithScoresRev (board : ZSet) (start stop : Int) : ZSet :=
  let s := revSorted board
  let n : Int := s.length
  let start1 : Int := if start < 0 then max (start + n) 0 else start
  let stop1 : Int := min (if stop < 0 then stop + n else stop) (n - 1)
  if start1 > stop1 ∨ n ≤ start1 then []
  else (s.drop start1.toNat).take (stop1 - start1 + 1).toNat

/-- The rank-assigning map in RedisService.getTopPlayers:
results.map((result, index) => (player_id, rank := index + 1, score)). -/
def withRanks : Nat → ZSet → List LeaderboardEntry
  | _, [] => []
  | i, (m, s) :: rest => ⟨m, i + 1, s⟩ :: withRanks (i + 1) rest

/-- RedisService.getTopPlayers(count): ZRANGE 0 (count-1) REV with
scores, then 1-based ranks by position.  count is a JS number, so it is
modelled as Int (the source applies no clamping here). -/
def getTopPlayers (board : ZSet) (count : Int) : List LeaderboardEntry :=
  withRanks 0 (zRangeWithScoresRev board 0 (count - 1))

/-- RedisService.getPlayerRank: ZREVRANK (0-based position in the
descending order) plus one, null when the member is absent. -/
def getPlayerRank (board : ZSet) (playerId : String) : Option Nat :=
  (List.findIdx? (fun e => e.1 == playerId) (revSorted board)).map (· + 1)

/-- ScoreController.getTopPlayers limit handling:
Math.min(parseInt(req.query.limit) || 10, 100).  none models NaN
(missing or unparsable query); JS || replaces NaN and 0 by 10. -/
def controllerLimit (parsed : Option Int) : Int :=
  min (match parsed with
       | none => 10
       | some v => if v = 0 then 10 else v) 100

/-! ## Ranking-store operation sequences (for rank-vs-history claims) -/

inductive StoreOp where
  | upsert (playerId : String) (score : Nat)
  | remove (playerId : String)
deriving DecidableEq, Repr

def applyOp (board : ZSet) : StoreOp → ZSet
  | .upsert playerId score => addScore board playerId score
  | .remove playerId => removePlayer board playerId

def runOps (ops : List StoreOp) : ZSet :=
  ops.foldl applyOp []

/-- Whether the participant is a current member of the store after the
given operation history: the last upsert/remove touching the id wins. -/
def memberAfter (ops : List StoreOp) (playerId : String) : Bool :=
  ops.foldl
    (fun b op =>
      match op with
      | .upsert i _ => if i = playerId then true else b
      | .remove i => if i = playerId then false else b)
    false

/-! ## Checksum (LeaderboardProcessingService.generateChecksum) -/

/-- Decimal digits of n, little-endian, fuel-indexed so the definition
is structural; with fuel at least n this agrees with Nat.digits 10. -/
def decDigits : Nat → Nat → List Nat
  | 0, _ => []
  | fuel + 1, n => if n = 0 then [] else n % 10 :: decDigits fuel (n / 10)

/-- JS ToString on a non-negative integer: its decimal numeral. -/
def natDecimal (n : Nat) : String :=
  if n = 0 then "0" else ⟨((decDigits n n).map Nat.digitChar).reverse⟩

/-- The per-entry serialization in generateChecksum:
a template literal of player_id, a colon, and the score. -/
def serializeEntry (e : LeaderboardEntry) : String :=
  e.player_id ++ ":" ++ natDecimal e.score

/-- JS Array.join with separator, as used by .join in generateChecksum. -/
def joinBar : List String → String
  | [] => ""
  | [s] => s
  | s :: rest => s ++ "|" ++ joinBar rest

/-- The data string hashed by generateChecksum. -/
def generateChecksumData (leaderboard : List LeaderboardEntry) : String :=
  joinBar (leaderboard.map serializeEntry)

/-- Modelled collaborator: crypto.createHash of the data, an external
library call assumed collision-free on the serialized data strings, so
it is modelled as the identity encoding of its input. -/
def sha256Hex (s : String) : String := s

/-- LeaderboardProcessingService.generateChecksum: hash of the joined
player_id and score pairs of the snapshot, in order. -/
def generateChecksum (leaderboard : List LeaderboardEntry) : String :=
  sha256Hex (generateChecksumData leaderboard)

/-! ## Enrichment (LeaderboardProcessingService.enhanceLeaderboardWithUserDetails) -/

/-- The username written into an enhanced row:
user?.username || a placeholder (JS || also replaces an empty string). -/
def enhancedUsername (user : Option User) : String :=
  match user with
  | none => "Unknown"
  | some u => if u.username = "" then "Unknown" else u.username

/-- Cache-first enrichment: look the player up in the user cache, fall
back to the database and populate the cache on a hit, and emit the
entry's fields unchanged plus the username.  The user cache is threaded
as state (a lookup function updated on database hits). -/
def enhanceLeaderboardWithUserDetails (dbGetUser : String → Option User) :
    List LeaderboardEntry → (String → Option User) →
    List EnhancedLeaderboardEntry × (String → Option User)
  | [], cache => ([], cache)
  | e :: rest, cache =>
    match cache e.player_id with
    | some u =>
      let r := enhanceLeaderboardWithUserDetails dbGetUser rest cache
      (⟨e.player_id, e.rank, e.score, enhancedUsername (some u)⟩ :: r.1, r.2)
    | none =>
      match dbGetUser e.player_id with
      | some u =>
        let cache1 : String → Option User :=
          fun k => if k = e.player_id then some u else cache k
        let r := enhanceLeaderboardWithUserDetails dbGetUser rest cache1
        (⟨e.player_id, e.rank, e.score, enhancedUsername (some u)⟩ :: r.1, r.2)
      | none =>
        let r := enhanceLeaderboardWithUserDetails dbGetUser rest cache
        (⟨e.player_id, e.rank, e.score, enhancedUsername none⟩ :: r.1, r.2)

/-! ## Changed-rankings diff (LeaderboardProcessingService.findChangedRankings) -/

structure RankChange where
  player_id : String
  oldRank : Option Nat
  newRank : Nat
deriving DecidableEq, Repr

/-- The Map built from the old leaderboard: later entries overwrite
earlier ones, lookup of a missing key gives undefined. -/
def oldRankLookup (oldLeaderboard : List LeaderboardEntry) (playerId : String) :
    Option Nat :=
  oldLeaderboard.foldl
    (fun acc e => if e.player_id = playerId then some e.rank else acc) none

/-- The JS expression oldRankMap.get(id) || null: undefined and the
falsy rank 0 both become null. -/
def jsRankOrNull (r : Option Nat) : Option Nat :=
  match r with
  | some v => if v = 0 then none else some v
  | none => none

/-- findChangedRankings: walk the new leaderboard and keep each entry
whose rank differs from its old rank (missing old rank becomes null).
Entries only in the old leaderboard are never visited. -/
def findChangedRankings (oldLeaderboard newLeaderboard : List LeaderboardEntry) :
    List RankChange :=
  newLeaderboard.filterMap fun ne =>
    let oldRank := jsRankOrNull (oldRankLookup oldLeaderboard ne.player_id)
    if oldRank ≠ some ne.rank then some ⟨ne.player_id, oldRank, ne.rank⟩ else none

/-! ## Throttled processing (LeaderboardProcessingService.processLeaderboardChange) -/

/-- The payload published to the leaderboard_updates topic. -/
structure PublishedUpdate where
  leaderboard : List EnhancedLeaderboardEntry
  timestamp : Int
  checksum : String
  changedRankings : List RankChange

/-- The shared Redis state processLeaderboardChange reads and writes:
the sorted set, the last-update timestamp key, the cached last
published leaderboard, and the user cache. -/
structure ProcState where
  board : ZSet
  lastUpdate : Option Int
  cached : Option LeaderboardUpdate
  userCache : String → Option User

/-- processLeaderboardChange: drop the tick when inside the throttle
window of the shared last-update timestamp; otherwise fetch top 10,
checksum it, drop the tick when the checksum matches the cached
leaderboard; otherwise enrich, cache the new leaderboard and timestamp,
diff the rankings and publish. -/
def processLeaderboardChange (dbGetUser : String → Option User)
    (throttleDuration : Int) (currentTime : Int) (st : ProcState) :
    Option PublishedUpdate × ProcState :=
  let throttled : Bool :=
    match st.lastUpdate with
    | some t => currentTime - t < throttleDuration
    | none => false
  if throttled then (none, st)
  else
    let top10 := getTopPlayers st.board 10
    let checksum := generateChecksum top10
    let dedup : Bool :=
      match st.cached with
      | some c => c.checksum = checksum
      | none => false
    if dedup then (none, st)
    else
      let r := enhanceLeaderboardWithUserDetails dbGetUser top10 st.userCache
      let leaderboardUpdate : LeaderboardUpdate := ⟨top10, currentTime, checksum⟩
      let oldTop :=
        match st.cached with
        | some c => c.top10
        | none => []
      let changedRankings := findChangedRankings oldTop top10
      (some ⟨r.1, currentTime, checksum, changedRankings⟩,
        { board := st.board
          lastUpdate := some currentTime
          cached := some leaderboardUpdate
          userCache := r.2 })

/-! ## Batched persistence (BatchSavingService, DatabaseService) -/

/-- The record DatabaseService.saveToDeadLetterQueue appends: the
current ISO timestamp, the number of submissions, and the submissions
themselves.  It has no field recording the number of save attempts. -/
structure DeadLetterEntry where
  timestamp : String
  count : Nat
  submissions : List ScoreSubmission
deriving DecidableEq, Repr

/-- DatabaseService.saveToDeadLetterQueue: append one record built from
the batch to the persistent queue. -/
def dbSaveToDeadLetterQueue (now : String) (queue : List DeadLetterEntry)
    (submissions : List ScoreSubmission) : List DeadLetterEntry :=
  queue ++ [⟨now, submissions.length, submissions⟩]

/-- Externally observable effects of a flush: batches the sink accepted,
the dead-letter queue, and batches lost because the dead-letter write
itself failed (surfaced only by a critical log in the source). -/
structure FlushEffects where
  savedBatches : List (List ScoreSubmission)
  deadLetters : List DeadLetterEntry
  criticalLost : List (List ScoreSubmission)
deriving DecidableEq, Repr

def maxRetries : Nat := 3

/-- BatchSavingService.saveToDeadLetterQueue: try the database write;
on failure the batch is only logged (CRITICAL: Lost batch data). -/
def saveToDeadLetterQueue (dlqFails : Bool) (now : String)
    (batch : List ScoreSubmission) (eff : FlushEffects) : FlushEffects :=
  if dlqFails then { eff with criticalLost := eff.criticalLost ++ [batch] }
  else { eff with deadLetters := dbSaveToDeadLetterQueue now eff.deadLetters batch }

/-- The retry loop of flushBatch (while attempt < maxRetries and not
success).  sinkFails k tells whether the k-th saveBatch call fails.
fuel is maxRetries - attempt, so the loop is structural; the
exponential-backoff sleep has no observable effect and is omitted. -/
def flushLoop (sinkFails : Nat → Bool) (dlqFails : Bool) (now : String)
    (batchToSave : List ScoreSubmission) (eff : FlushEffects) :
    Nat → Nat → FlushEffects
  | 0, _ => eff
  | fuel + 1, attempt =>
    if sinkFails attempt then
      if attempt + 1 < maxRetries then
        flushLoop sinkFails dlqFails now batchToSave eff fuel (attempt + 1)
      else
        saveToDeadLetterQueue dlqFails now batchToSave eff
    else
      { eff with savedBatches := eff.savedBatches ++ [batchToSave] }

/-- The in-memory state of BatchSavingService. -/
structure BatchState where
  batch : List ScoreSubmission
  saveInProgress : Bool
deriving DecidableEq, Repr

/-- BatchSavingService.flushBatch: no-op when the batch is empty or a
save is in flight; otherwise swap the batch out for an empty one and
run the retry loop on the swapped-out copy. -/
def flushBatch (sinkFails : Nat → Bool) (dlqFails : Bool) (now : String)
    (st : BatchState) (eff : FlushEffects) : BatchState × FlushEffects :=
  if st.batch.isEmpty || st.saveInProgress then (st, eff)
  else
    let batchToSave := st.batch
    (⟨[], false⟩, flushLoop sinkFails dlqFails now batchToSave eff maxRetries 0)

/-! ## Broadcast hub (WebSocketService) -/

/-- A registered WebSocket client: whether its readyState is OPEN and
whether a send call on it throws. -/
structure Client where
  cid : Nat
  readyOpen : Bool
  sendRaises : Bool
deriving DecidableEq, Repr

/-- WebSocketService.broadcast over the registered client set, in
order: an OPEN client is sent the message (a throwing send only
increments failCount); a non-OPEN client is deleted from the set and
counted failed.  Returns (successCount, failCount, remaining set). -/
def broadcast : List Client → Nat × Nat × List Client
  | [] => (0, 0, [])
  | c :: rest =>
    let r := broadcast rest
    if c.readyOpen then
      if c.sendRaises then (r.1, r.2.1 + 1, c :: r.2.2)
      else (r.1 + 1, r.2.1, c :: r.2.2)
    else (r.1, r.2.1 + 1, r.2.2)

/-- WebSocketService.sendHeartbeat: sends to OPEN clients, deleting a
client whose send throws and any non-OPEN client.  Returns the
remaining set. -/
def sendHeartbeat : List Client → List Client
  | [] => []
  | c :: rest =>
    if c.readyOpen then
      if c.sendRaises then sendHeartbeat rest else c :: sendHeartbeat rest
    else sendHeartbeat rest

/-- The clients a heartbeat pass attempts to send to: exactly the
registered clients whose connection is OPEN. -/
def heartbeatTargets (clients : List Client) : List Client :=
  clients.filter (·.readyOpen)

/-! ## Concrete fixtures -/

/-- The end-to-end scenario board: alice 1000, bob 2000, carol 1500. -/
def demoBoard : ZSet :=
  addScore (addScore (addScore [] "alice" 1000) "bob" 2000) "carol" 1500

/-- A board with a score tie between members a and b. -/
def tieBoard : ZSet :=
  addScore (addScore [] "a" 100) "b" 100

def demoSubmission : ScoreSubmission := ⟨"p1", 42, "2025-11-08T12:00:00.000Z"⟩

/-! # Proof development -/

/-! ## The member order -/

theorem charListLt_cons_iff {a b : Char} {as bs : List Char} :
    charListLt (a :: as) (b :: bs) = true ↔
      a < b ∨ (a = b ∧ charListLt as bs = true) := by
  simp only [charListLt]
  by_cases h1 : a < b
  · simp [h1]
  · by_cases h2 : b < a
    · have : a ≠ b := fun e => absurd (e ▸ h2) (lt_irrefl a)
      simp [h1, h2, this]
    · have : a = b := le_antisymm (not_lt.mp h2) (not_lt.mp h1)
      simp [h1, h2, this]

theorem charListLt_cons_self {a : Char} {as bs : List Char} :
    charListLt (a :: as) (a :: bs) = charListLt as bs := by
  simp [charListLt]

theorem charListLt_asymm :
    ∀ as bs : List Char, charListLt as bs = true → charListLt bs as = false
  | [], [] => by simp [charListLt]
  | [], _ :: _ => by simp [charListLt]
  | _ :: _, [] => by simp [charListLt]
  | a :: as, b :: bs => by
    intro h
    rcases charListLt_cons_iff.mp h with h1 | ⟨rfl, h2⟩
    · simp [charListLt, lt_asymm h1, h1]
    · rw [charListLt_cons_self]
      exact charListLt_asymm as bs h2

theorem charListLt_connex :
    ∀ as bs : List Char, charListLt as bs = false → charListLt bs as = false →
      as = bs
  | [], [] => fun _ _ => rfl
  | [], _ :: _ => by intro h1 _; simp [charListLt] at h1
  | _ :: _, [] => by intro _ h2; simp [charListLt] at h2
  | a :: as, b :: bs => by
    intro h1 h2
    by_cases hab : a < b
    · rw [show charListLt (a :: as) (b :: bs) = true from by
        simp [charListLt, hab]] at h1
      cases h1
    · by_cases hba : b < a
      · rw [show charListLt (b :: bs) (a :: as) = true from by
          simp [charListLt, hba]] at h2
        cases h2
      · have hEq : a = b := le_antisymm (not_lt.mp hba) (not_lt.mp hab)
        subst hEq
        rw [charListLt_cons_self] at h1 h2
        rw [charListLt_connex as bs h1 h2]

theorem charListLt_trans (as : List Char) :
    ∀ bs cs : List Char, charListLt as bs = true → charListLt bs cs = true →
      charListLt as cs = true := by
  induction as with
  | nil =>
    intro bs cs h1 h2
    cases bs with
    | nil => exact h2
    | cons b bs =>
      cases cs with
      | nil => simp [charListLt] at h2
      | cons c cs => simp [charListLt]
  | cons a as ih =>
    intro bs cs h1 h2
    cases bs with
    | nil => simp [charListLt] at h1
    | cons b bs =>
      cases cs with
      | nil => simp [charListLt] at h2
      | cons c cs =>
        rcases charListLt_cons_iff.mp h1 with hab | ⟨hab, hab2⟩ <;>
          rcases charListLt_cons_iff.mp h2 with hbc | ⟨hbc, hbc2⟩
        · exact charListLt_cons_iff.mpr (Or.inl (hab.trans hbc))
        · exact charListLt_cons_iff.mpr (Or.inl (by rw [← hbc]; exact hab))
        · exact charListLt_cons_iff.mpr (Or.inl (by rw [hab]; exact hbc))
        · exact charListLt_cons_iff.mpr
            (Or.inr ⟨hab.trans hbc, ih bs cs hab2 hbc2⟩)

theorem memberLt_asymm {a b : String} (h : memberLt a b = true) :
    memberLt b a = false :=
  charListLt_asymm a.data b.data h

theorem memberLt_connex {a b : String} (h1 : memberLt a b = false)
    (h2 : memberLt b a = false) : a = b :=
  String.ext (charListLt_connex a.data b.data h1 h2)

theorem memberLt_trans {a b c : String} (h1 : memberLt a b = true)
    (h2 : memberLt b c = true) : memberLt a c = true :=
  charListLt_trans a.data b.data c.data h1 h2

theorem memberLt_false_trans {a b c : String} (h1 : memberLt a b = false)
    (h2 : memberLt b c = false) : memberLt a c = false := by
  cases hac : memberLt a c with
  | false => rfl
  | true =>
    cases hcb : memberLt c b with
    | true =>
      have hab : memberLt a b = true := memberLt_trans hac hcb
      rw [hab] at h1
      cases h1
    | false =>
      have hbc : b = c := memberLt_connex h2 hcb
      rw [← hbc] at hac
      rw [hac] at h1
      cases h1

instance entryRevLE.instIsTotal : IsTotal (String × Nat) entryRevLE where
  total a b := by
    unfold entryRevLE
    rcases Nat.lt_trichotomy a.2 b.2 with h | h | h
    · exact Or.inr (Or.inl h)
    · cases hm : memberLt a.1 b.1 with
      | false =>
        refine Or.inl (Or.inr ⟨h ▸ rfl, ?_⟩)
        simp [memberLE, hm]
      | true =>
        refine Or.inr (Or.inr ⟨h ▸ rfl, ?_⟩)
        simp [memberLE, memberLt_asymm hm]
    · exact Or.inl (Or.inl h)

instance entryRevLE.instIsTrans : IsTrans (String × Nat) entryRevLE where
  trans a b c hab hbc := by
    unfold entryRevLE at *
    rcases hab with h1 | ⟨h1, h1s⟩ <;> rcases hbc with h2 | ⟨h2, h2s⟩
    · exact Or.inl (h2.trans h1)
    · exact Or.inl (h2 ▸ h1)
    · exact Or.inl (h1 ▸ h2)
    · refine Or.inr ⟨h2.trans h1, ?_⟩
      simp only [memberLE, Bool.not_eq_true'] at h1s h2s ⊢
      exact memberLt_false_trans h1s h2s

/-! ## Sortedness of the range queries -/

theorem revSorted_pairwise (board : ZSet) :
    List.Pairwise entryRevLE (revSorted board) :=
  List.sorted_insertionSort entryRevLE board

theorem zRange_sublist (board : ZSet) (start stop : Int) :
    List.Sublist (zRangeWithScoresRev board start stop) (revSorted board) := by
  unfold zRangeWithScoresRev
  dsimp only
  repeat' split
  all_goals
    first
      | exact List.nil_sublist _
      | exact (List.take_sublist _ _).trans (List.drop_sublist _ _)

theorem zRange_pairwise (board : ZSet) (start stop : Int) :
    List.Pairwise entryRevLE (zRangeWithScoresRev board start stop) :=
  (revSorted_pairwise board).sublist (zRange_sublist board start stop)

theorem zRange_keys_nodup (board : ZSet) (start stop : Int)
    (hnd : (board.map Prod.fst).Nodup) :
    ((zRangeWithScoresRev board start stop).map Prod.fst).Nodup := by
  have hperm : List.Perm (revSorted board) board :=
    List.perm_insertionSort entryRevLE board
  have hsorted : ((revSorted board).map Prod.fst).Nodup :=
    ((hperm.map Prod.fst).nodup_iff).mpr hnd
  exact hsorted.sublist ((zRange_sublist board start stop).map Prod.fst)

theorem withRanks_getElem? (xs : ZSet) :
    ∀ (k i : Nat),
      (withRanks k xs)[i]? =
        (xs[i]?).map fun p => (⟨p.1, k + i + 1, p.2⟩ : LeaderboardEntry) := by
  induction xs with
  | nil => intro k i; simp [withRanks]
  | cons p rest ih =>
    intro k i
    obtain ⟨m, s⟩ := p
    cases i with
    | zero => simp [withRanks]
    | succ i =>
      simp only [withRanks, List.getElem?_cons_succ, ih (k + 1) i]
      simp only [show k + 1 + i = k + (i + 1) from by omega]

theorem getTop_entry {board : ZSet} {count : Int} {i : Nat} {e : LeaderboardEntry}
    (h : (getTopPlayers board count)[i]? = some e) :
    ∃ p, (zRangeWithScoresRev board 0 (count - 1))[i]? = some p ∧
      e.player_id = p.1 ∧ e.rank = i + 1 ∧ e.score = p.2 := by
  unfold getTopPlayers at h
  rw [withRanks_getElem?] at h
  rcases Option.map_eq_some'.mp h with ⟨p, hp, he⟩
  refine ⟨p, hp, ?_, ?_, ?_⟩
  · rw [← he]
  · rw [← he]; simp
  · rw [← he]

theorem zRange_adjacent {board : ZSet} {count : Int} {i : Nat} {p q : String × Nat}
    (hp : (zRangeWithScoresRev board 0 (count - 1))[i]? = some p)
    (hq : (zRangeWithScoresRev board 0 (count - 1))[i + 1]? = some q) :
    entryRevLE p q := by
  rcases List.getElem?_eq_some_iff.mp hp with ⟨hi, hpe⟩
  rcases List.getElem?_eq_some_iff.mp hq with ⟨hj, hqe⟩
  have hrel := List.pairwise_iff_getElem.mp
    (zRange_pairwise board 0 (count - 1)) i (i + 1) hi hj (by omega)
  rw [hpe, hqe] at hrel
  exact hrel

theorem zRange_adjacent_keys {board : ZSet} {count : Int} {i : Nat}
    {p q : String × Nat} (hnd : (board.map Prod.fst).Nodup)
    (hp : (zRangeWithScoresRev board 0 (count - 1))[i]? = some p)
    (hq : (zRangeWithScoresRev board 0 (count - 1))[i + 1]? = some q) :
    p.1 ≠ q.1 := by
  rcases List.getElem?_eq_some_iff.mp hp with ⟨hi, hpe⟩
  rcases List.getElem?_eq_some_iff.mp hq with ⟨hj, hqe⟩
  have hk := zRange_keys_nodup board 0 (count - 1) hnd
  have hne := List.pairwise_iff_getElem.mp hk i (i + 1)
    (by simpa using hi) (by simpa using hj) (by omega)
  simpa [hpe, hqe] using hne

/-- Claim C1 counterexample: after upserting a and b with the same
score 100, the top-10 snapshot lists b before a although a precedes b
in the ascending participant order, so equal-score entries do not
appear in ascending participant_id order. -/
theorem getTopPlayers_tie_not_ascending :
    (getTopPlayers tieBoard 10)[0]? = some ⟨"b", 1, 100⟩ ∧
    (getTopPlayers tieBoard 10)[1]? = some ⟨"a", 2, 100⟩ ∧
    memberLt "b" "a" = false := by decide

/-- Claim C1 (amended): in every snapshot returned by getTopPlayers on
a store with distinct members, rank is 1-based and strictly increasing
(entry i has rank i + 1), score is non-increasing across consecutive
entries, and any two entries with equal score appear in descending
(not ascending) order of participant_id; the concrete scenario holds:
after upserting (alice,1000), (bob,2000), (carol,1500), top(10) is
[bob:1:2000, carol:2:1500, alice:3:1000]. -/
theorem getTopPlayers_snapshot_order (board : ZSet) (count : Int)
    (hnd : (board.map Prod.fst).Nodup) :
    (∀ i e, (getTopPlayers board count)[i]? = some e → e.rank = i + 1) ∧
    (∀ i e e', (getTopPlayers board count)[i]? = some e →
      (getTopPlayers board count)[i + 1]? = some e' → e'.score ≤ e.score) ∧
    (∀ i e e', (getTopPlayers board count)[i]? = some e →
      (getTopPlayers board count)[i + 1]? = some e' → e'.score = e.score →
      memberLt e'.player_id e.player_id = true) ∧
    getTopPlayers demoBoard 10 =
      [⟨"bob", 1, 2000⟩, ⟨"carol", 2, 1500⟩, ⟨"alice", 3, 1000⟩] := by
  refine ⟨?_, ?_, ?_, by decide⟩
  · intro i e he
    rcases getTop_entry he with ⟨p, _, _, hrank, _⟩
    exact hrank
  · intro i e e' he he'
    rcases getTop_entry he with ⟨p, hp, _, _, hscore⟩
    rcases getTop_entry he' with ⟨q, hq, _, _, hscore'⟩
    rcases zRange_adjacent hp hq with h | ⟨h, _⟩
    · rw [hscore, hscore']; exact le_of_lt h
    · rw [hscore, hscore', h]
  · intro i e e' he he' hsc
    rcases getTop_entry he with ⟨p, hp, hid, _, hscore⟩
    rcases getTop_entry he' with ⟨q, hq, hid', _, hscore'⟩
    have hne : p.1 ≠ q.1 := zRange_adjacent_keys hnd hp hq
    rcases zRange_adjacent hp hq with h | ⟨_, hle⟩
    · rw [hscore, hscore'] at hsc; omega
    · simp only [memberLE, Bool.not_eq_true'] at hle
      cases hqlt : memberLt q.1 p.1 with
      | true => rw [hid, hid']; exact hqlt
      | false => exact absurd (memberLt_connex hle hqlt) hne

/-- Witness for the amended C1: instantiated on the tie board, the
second tied entry's participant_id is lexicographically below the
first one. -/
theorem getTopPlayers_snapshot_order_witness : memberLt "a" "b" = true :=
  (getTopPlayers_snapshot_order tieBoard 10 (by decide)).2.2.1 0
    ⟨"b", 1, 100⟩ ⟨"a", 2, 100⟩ (by decide) (by decide) rfl

/-! ## Snapshot length semantics -/

theorem withRanks_length : ∀ (k : Nat) (xs : ZSet),
    (withRanks k xs).length = xs.length
  | _, [] => rfl
  | k, (_, _) :: rest => by
    simp [withRanks, withRanks_length (k + 1) rest]

theorem zRange_length_of_nonneg (board : ZSet) (stop : Int) (hstop : 0 ≤ stop) :
    (zRangeWithScoresRev board 0 stop).length = min (stop + 1).toNat board.length := by
  have hlen : (revSorted board).length = board.length :=
    List.length_insertionSort entryRevLE board
  unfold zRangeWithScoresRev
  dsimp only
  rw [if_neg (by omega : ¬ ((0 : Int) < 0)), if_neg (by omega : ¬ stop < 0), hlen]
  split
  · rename_i hcond
    simp only [List.length_nil]
    omega
  · rename_i hcond
    simp only [List.length_take, List.length_drop, hlen]
    omega

theorem zRange_length_neg_one (board : ZSet) :
    (zRangeWithScoresRev board 0 (-1)).length = board.length := by
  have hlen : (revSorted board).length = board.length :=
    List.length_insertionSort entryRevLE board
  unfold zRangeWithScoresRev
  dsimp only
  rw [if_neg (by omega : ¬ ((0 : Int) < 0)), if_pos (by omega : (-1 : Int) < 0), hlen]
  split
  · rename_i hcond
    simp only [List.length_nil]
    omega
  · rename_i hcond
    simp only [List.length_take, List.length_drop, hlen]
    omega

/-- Claim C4 counterexample: top(0) on a one-player store returns the
whole leaderboard, not an empty snapshot (ZRANGE 0 -1 REV is the full
range), refuting that every k ≤ 0 yields an empty snapshot. -/
theorem getTopPlayers_zero_not_empty :
    getTopPlayers (addScore [] "a" 5) 0 = [⟨"a", 1, 5⟩] ∧
    getTopPlayers (addScore [] "a" 5) 0 ≠ [] := by decide

/-- Claim C4 (amended): RedisService.getTopPlayers applies no clamping
at all: for k ≥ 1 the snapshot has exactly min k N entries for a store
of N players (unbounded in k), and k = 0 returns the entire leaderboard
rather than an empty snapshot.  The bound of 100 is enforced only by
the HTTP controller, whose parsed limit (with NaN and 0 replaced by 10)
is capped by Math.min at 100. -/
theorem getTopPlayers_count_semantics (board : ZSet) (k : Int) :
    (1 ≤ k → (getTopPlayers board k).length = min k.toNat board.length) ∧
    (getTopPlayers board 0).length = board.length ∧
    (∀ p : Option Int, controllerLimit p ≤ 100) := by
  refine ⟨?_, ?_, ?_⟩
  · intro hk
    unfold getTopPlayers
    rw [withRanks_length, zRange_length_of_nonneg board (k - 1) (by omega)]
    omega
  · unfold getTopPlayers
    rw [withRanks_length]
    exact zRange_length_neg_one board
  · intro p
    unfold controllerLimit
    exact min_le_right _ _

/-- Witness for the amended C4: requesting 2 of the 3 demo players
returns a snapshot of length 2. -/
theorem getTopPlayers_count_semantics_witness :
    (getTopPlayers demoBoard 2).length = min (Int.toNat 2) demoBoard.length :=
  (getTopPlayers_count_semantics demoBoard 2).1 (by omega)

/-! ## Rank lookup versus operation history -/

theorem getPlayerRank_none_iff (board : ZSet) (playerId : String) :
    getPlayerRank board playerId = none ↔ ∀ e ∈ board, e.1 ≠ playerId := by
  unfold getPlayerRank revSorted
  rw [Option.map_eq_none']
  rw [List.findIdx?_eq_none_iff]
  constructor
  · intro h e he
    have := h e ((List.mem_insertionSort entryRevLE).mpr he)
    simpa using this
  · intro h e he
    have := h e ((List.mem_insertionSort entryRevLE).mp he)
    simpa using this

theorem hasKey_addScore {b : ZSet} {i playerId : String} {s : Nat} :
    (∃ e ∈ addScore b i s, e.1 = playerId) ↔
      (playerId = i ∨ ∃ e ∈ b, e.1 = playerId) := by
  unfold addScore
  constructor
  · rintro ⟨e, he, hkey⟩
    rcases List.mem_append.mp he with hin | hin
    · rcases List.mem_filter.mp hin with ⟨hb, _⟩
      exact Or.inr ⟨e, hb, hkey⟩
    · simp only [List.mem_singleton] at hin
      subst hin
      exact Or.inl hkey.symm
  · rintro (rfl | ⟨e, hb, hkey⟩)
    · exact ⟨(playerId, s), List.mem_append.mpr (Or.inr (by simp)), rfl⟩
    · by_cases hpi : e.1 = i
      · refine ⟨(i, s), List.mem_append.mpr (Or.inr (by simp)), ?_⟩
        rw [← hpi, hkey]
      · refine ⟨e, List.mem_append.mpr (Or.inl ?_), hkey⟩
        exact List.mem_filter.mpr ⟨hb, by simpa using hpi⟩

theorem hasKey_removePlayer {b : ZSet} {i playerId : String} :
    (∃ e ∈ removePlayer b i, e.1 = playerId) ↔
      (playerId ≠ i ∧ ∃ e ∈ b, e.1 = playerId) := by
  unfold removePlayer
  constructor
  · rintro ⟨e, he, hkey⟩
    rcases List.mem_filter.mp he with ⟨hb, hne⟩
    refine ⟨?_, e, hb, hkey⟩
    rw [← hkey]
    simpa using hne
  · rintro ⟨hpi, e, hb, hkey⟩
    refine ⟨e, List.mem_filter.mpr ⟨hb, ?_⟩, hkey⟩
    simp only [bne_iff_ne, ne_eq, hkey]
    exact hpi

theorem hasKey_foldl (playerId : String) (ops : List StoreOp) :
    ∀ (b : ZSet) (init : Bool),
      ((∃ e ∈ b, e.1 = playerId) ↔ init = true) →
      ((∃ e ∈ ops.foldl applyOp b, e.1 = playerId) ↔
        ops.foldl
          (fun b2 op =>
            match op with
            | .upsert i _ => if i = playerId then true else b2
            | .remove i => if i = playerId then false else b2) init = true) := by
  induction ops with
  | nil => intro b init h; simpa using h
  | cons op rest ih =>
    intro b init h
    cases op with
    | upsert i s =>
      simp only [List.foldl_cons, applyOp]
      apply ih
      by_cases hi : i = playerId
      · subst hi
        rw [hasKey_addScore]
        constructor
        · intro _; simp
        · intro _; exact Or.inl rfl
      · rw [hasKey_addScore, if_neg hi]
        constructor
        · rintro (h1 | h1)
          · exact absurd h1.symm hi
          · exact h.mp h1
        · intro h1
          exact Or.inr (h.mpr h1)
    | remove i =>
      simp only [List.foldl_cons, applyOp]
      apply ih
      by_cases hi : i = playerId
      · subst hi
        rw [hasKey_removePlayer]
        constructor
        · rintro ⟨hne, _⟩
          exact absurd rfl hne
        · intro hfalse
          rw [if_pos rfl] at hfalse
          cases hfalse
      · rw [hasKey_removePlayer, if_neg hi]
        constructor
        · rintro ⟨_, h1⟩
          exact h.mp h1
        · intro h1
          exact ⟨fun he => hi he.symm, h.mpr h1⟩

/-- Claim C9 counterexample: the history upsert(a,1) then remove(a)
leaves rankOf(a) = none although a did submit a score, refuting that
none means the participant never submitted. -/
theorem getPlayerRank_none_after_remove :
    getPlayerRank (runOps [.upsert "a" 1, .remove "a"]) "a" = none ∧
    StoreOp.upsert "a" 1 ∈ [StoreOp.upsert "a" 1, StoreOp.remove "a"] := by
  decide

/-- Claim C9 (amended): for every operation history, rankOf returns
none iff the participant is not a current member of the ranked store:
either it was never upserted, or its last touching operation is a
remove.  (A removed participant has rank none even though it has
submitted a score.) -/
theorem getPlayerRank_none_iff_not_member (ops : List StoreOp)
    (playerId : String) :
    getPlayerRank (runOps ops) playerId = none ↔
      memberAfter ops playerId = false := by
  rw [getPlayerRank_none_iff]
  unfold runOps memberAfter
  have h := hasKey_foldl playerId ops [] false (by simp)
  constructor
  · intro hnone
    cases hfin : ops.foldl
        (fun b2 op =>
          match op with
          | .upsert i _ => if i = playerId then true else b2
          | .remove i => if i = playerId then false else b2) false with
    | false => rfl
    | true =>
      rcases h.mpr hfin with ⟨e, he, hkey⟩
      exact absurd hkey (hnone e he)
  · intro hfin e he hkey
    have : (false : Bool) = true := hfin ▸ h.mp ⟨e, he, hkey⟩
    cases this

/-! ## Checksum injectivity on the serialized content -/

theorem decDigits_eq_digits : ∀ (fuel n : Nat), n ≤ fuel →
    decDigits fuel n = Nat.digits 10 n
  | 0, n, h => by
    have hn : n = 0 := by omega
    subst hn
    simp [decDigits]
  | fuel + 1, n, h => by
    by_cases hn : n = 0
    · subst hn; simp [decDigits]
    · rw [decDigits, if_neg hn,
        Nat.digits_def' (by norm_num : (1 : Nat) < 10) (Nat.pos_of_ne_zero hn),
        decDigits_eq_digits fuel (n / 10) (by omega)]

theorem digitChar_inj_lt {a b : Nat} (ha : a < 10) (hb : b < 10)
    (h : Nat.digitChar a = Nat.digitChar b) : a = b := by
  interval_cases a <;> interval_cases b <;>
    first | rfl | exact absurd h (by decide)

theorem map_digitChar_inj : ∀ {l1 l2 : List Nat},
    (∀ d ∈ l1, d < 10) → (∀ d ∈ l2, d < 10) →
    l1.map Nat.digitChar = l2.map Nat.digitChar → l1 = l2
  | [], [], _, _, _ => rfl
  | [], _ :: _, _, _, h => by simp at h
  | _ :: _, [], _, _, h => by simp at h
  | a :: l1, b :: l2, h1, h2, h => by
    simp only [List.map_cons, List.cons.injEq] at h
    have ha := h1 a (by simp)
    have hb := h2 b (by simp)
    rw [digitChar_inj_lt ha hb h.1,
      map_digitChar_inj (fun d hd => h1 d (by simp [hd]))
        (fun d hd => h2 d (by simp [hd])) h.2]

theorem natDecimal_eq_zero_str {n : Nat} (h : natDecimal n = "0") : n = 0 := by
  by_cases hn : n = 0
  · exact hn
  · exfalso
    unfold natDecimal at h
    rw [if_neg hn, decDigits_eq_digits n n le_rfl] at h
    have hdata : ((Nat.digits 10 n).map Nat.digitChar).reverse = ['0'] :=
      congrArg String.data h
    have hmap : (Nat.digits 10 n).map Nat.digitChar = ['0'] := by
      have := congrArg List.reverse hdata
      simpa using this
    cases hd : Nat.digits 10 n with
    | nil => rw [hd] at hmap; simp at hmap
    | cons d rest =>
      rw [hd] at hmap
      cases rest with
      | cons _ _ => simp at hmap
      | nil =>
        simp only [List.map_cons, List.map_nil, List.cons.injEq, and_true] at hmap
        have hd10 : d < 10 :=
          Nat.digits_lt_base (by norm_num) (hd ▸ List.mem_cons_self d [])
        have hd0 : d = 0 := digitChar_inj_lt hd10 (by norm_num) (by simpa using hmap)
        have hrt := Nat.ofDigits_digits 10 n
        rw [hd, hd0] at hrt
        simp [Nat.ofDigits] at hrt
        exact hn hrt.symm

theorem natDecimal_inj {m n : Nat} (h : natDecimal m = natDecimal n) : m = n := by
  by_cases hm : m = 0 <;> by_cases hn : n = 0
  · rw [hm, hn]
  · rw [hm] at h ⊢
    exact (natDecimal_eq_zero_str (h.symm.trans (by simp [natDecimal]))).symm
  · rw [hn] at h ⊢
    exact natDecimal_eq_zero_str (h.trans (by simp [natDecimal]))
  · unfold natDecimal at h
    rw [if_neg hm, if_neg hn, decDigits_eq_digits m m le_rfl,
      decDigits_eq_digits n n le_rfl] at h
    have hdata : ((Nat.digits 10 m).map Nat.digitChar).reverse =
        ((Nat.digits 10 n).map Nat.digitChar).reverse :=
      congrArg String.data h
    have hmap := List.reverse_injective hdata
    have hdig := map_digitChar_inj
      (fun d hd => Nat.digits_lt_base (by norm_num) hd)
      (fun d hd => Nat.digits_lt_base (by norm_num) hd) hmap
    exact Nat.digits_inj_iff.mp hdig

theorem strAppend_left_cancel {a b c : String} (h : a ++ b = a ++ c) : b = c := by
  apply String.ext
  have := congrArg String.data h
  simp only [String.data_append] at this
  exact List.append_cancel_left this

theorem strAppend_right_cancel {a b c : String} (h : a ++ c = b ++ c) : a = b := by
  apply String.ext
  have := congrArg String.data h
  simp only [String.data_append] at this
  exact List.append_cancel_right this

theorem serializeEntry_ne {e e' : LeaderboardEntry}
    (hid : e.player_id = e'.player_id) (hs : e.score ≠ e'.score) :
    serializeEntry e ≠ serializeEntry e' := by
  unfold serializeEntry
  rw [hid]
  intro h
  exact hs (natDecimal_inj (strAppend_left_cancel h))

theorem joinBar_cons_cons (a b : String) (l : List String) :
    joinBar (a :: b :: l) = a ++ "|" ++ joinBar (b :: l) := rfl

theorem joinBar_cons_append (p : String) (l : List String) (x : String)
    (suf : List String) :
    joinBar (p :: (l ++ x :: suf)) = p ++ "|" ++ joinBar (l ++ x :: suf) := by
  cases l <;> rfl

theorem joinBar_ne_of_single :
    ∀ (pre : List String) (x y : String) (suf : List String), x ≠ y →
      joinBar (pre ++ x :: suf) ≠ joinBar (pre ++ y :: suf)
  | [], x, y, [], hne => by simpa [joinBar] using hne
  | [], x, y, s :: suf, hne => by
    intro h
    rw [List.nil_append, List.nil_append, joinBar_cons_cons, joinBar_cons_cons] at h
    exact hne (strAppend_right_cancel (strAppend_right_cancel h))
  | p :: pre, x, y, suf, hne => by
    intro h
    rw [List.cons_append, List.cons_append, joinBar_cons_append,
      joinBar_cons_append] at h
    exact joinBar_ne_of_single pre x y suf hne (strAppend_left_cancel h)

/-- Claim C5: the fingerprint is a pure function of the ordered
(participant_id, score) pairs — two snapshots with the same members,
scores and order hash identically regardless of anything else (ranks,
time) — and changing any single score of a snapshot changes the
fingerprint (with the external SHA-256 modelled as an injective
encoding of the serialized data). -/
theorem generateChecksum_content (l1 l2 : List LeaderboardEntry)
    (pre suf : List LeaderboardEntry) (e e' : LeaderboardEntry) :
    (l1.map (fun x => (x.player_id, x.score)) =
        l2.map (fun x => (x.player_id, x.score)) →
      generateChecksum l1 = generateChecksum l2) ∧
    (e.player_id = e'.player_id → e.score ≠ e'.score →
      generateChecksum (pre ++ e :: suf) ≠ generateChecksum (pre ++ e' :: suf)) := by
  have hfactor : ∀ l : List LeaderboardEntry,
      l.map serializeEntry =
        (l.map (fun x => (x.player_id, x.score))).map
          (fun p => p.1 ++ ":" ++ natDecimal p.2) := by
    intro l
    induction l with
    | nil => rfl
    | cons a l ih => simp [serializeEntry, ih]
  constructor
  · intro hmap
    unfold generateChecksum generateChecksumData sha256Hex
    rw [hfactor l1, hfactor l2, hmap]
  · intro hid hs
    unfold generateChecksum generateChecksumData sha256Hex
    rw [List.map_append, List.map_append, List.map_cons, List.map_cons]
    exact joinBar_ne_of_single (pre.map serializeEntry) (serializeEntry e)
      (serializeEntry e') (suf.map serializeEntry) (serializeEntry_ne hid hs)

/-- Witness for C5: two snapshots with identical pairs but different
ranks share a fingerprint; changing one score changes it. -/
theorem generateChecksum_content_witness :
    generateChecksum [⟨"a", 1, 2⟩] = generateChecksum [⟨"a", 9, 2⟩] ∧
    generateChecksum [⟨"a", 1, 2⟩] ≠ generateChecksum [⟨"a", 1, 3⟩] := by
  constructor
  · exact (generateChecksum_content [⟨"a", 1, 2⟩] [⟨"a", 9, 2⟩] [] []
      ⟨"a", 1, 2⟩ ⟨"a", 1, 3⟩).1 (by decide)
  · exact (generateChecksum_content [] [] [] []
      ⟨"a", 1, 2⟩ ⟨"a", 1, 3⟩).2 rfl (by decide)

/-! ## Changed-rankings characterization -/

/-- Claim C3 counterexample: a participant present in the previous
snapshot but absent from the current one is not listed in changed
(findChangedRankings walks only the new snapshot), so the list is not
the symmetric diff. -/
theorem findChangedRankings_drops_departed :
    findChangedRankings [⟨"a", 1, 100⟩] [] = [] ∧
    ¬ ∃ c ∈ findChangedRankings [⟨"a", 1, 100⟩] [], c.player_id = "a" := by
  decide

/-- Claim C3 (amended): changed is the one-sided diff over the current
snapshot: it contains exactly the participants of the current snapshot
whose rank differs from their rank in the previous one (new entrants
getting old_rank none), each with correct old and new ranks, and no
participant with unchanged rank; participants only in the previous
snapshot are not listed. -/
theorem findChangedRankings_spec (oldL newL : List LeaderboardEntry)
    (p : String) :
    ((∃ c ∈ findChangedRankings oldL newL, c.player_id = p) ↔
      (∃ e ∈ newL, e.player_id = p ∧
        jsRankOrNull (oldRankLookup oldL p) ≠ some e.rank)) ∧
    (∀ c ∈ findChangedRankings oldL newL,
      c.oldRank = jsRankOrNull (oldRankLookup oldL c.player_id) ∧
      c.oldRank ≠ some c.newRank ∧
      ∃ e ∈ newL, e.player_id = c.player_id ∧ e.rank = c.newRank) := by
  constructor
  · constructor
    · rintro ⟨c, hc, hcp⟩
      rcases List.mem_filterMap.mp hc with ⟨e, he, hfe⟩
      dsimp only at hfe
      split at hfe
      · rename_i hcond
        rcases Option.some.inj hfe with rfl
        exact ⟨e, he, hcp, by rw [← hcp]; exact hcond⟩
      · cases hfe
    · rintro ⟨e, he, hep, hcond⟩
      refine ⟨⟨e.player_id, jsRankOrNull (oldRankLookup oldL e.player_id), e.rank⟩,
        List.mem_filterMap.mpr ⟨e, he, ?_⟩, hep⟩
      dsimp only
      rw [if_pos (by rw [hep]; exact hcond)]
  · intro c hc
    rcases List.mem_filterMap.mp hc with ⟨e, he, hfe⟩
    dsimp only at hfe
    split at hfe
    · rename_i hcond
      rcases Option.some.inj hfe with rfl
      exact ⟨rfl, hcond, e, he, rfl, rfl⟩
    · cases hfe

/-- Witness for the amended C3: with previous snapshot
[a:1, b:2] and current snapshot [b:1], participant b (whose rank
changed from 2 to 1) is listed. -/
theorem findChangedRankings_spec_witness :
    ∃ c ∈ findChangedRankings [⟨"a", 1, 100⟩, ⟨"b", 2, 90⟩] [⟨"b", 1, 95⟩],
      c.player_id = "b" :=
  (findChangedRankings_spec [⟨"a", 1, 100⟩, ⟨"b", 2, 90⟩] [⟨"b", 1, 95⟩]
    "b").1.mpr ⟨⟨"b", 1, 95⟩, by decide, rfl, by decide⟩

/-! ## Enrichment preserves the snapshot frame -/

/-- Claim C10: enrichment returns a list of the same length and order,
preserving each entry's player_id, rank and score unchanged and adding
only a username; an entry for which neither the user cache (at the time
the entry is processed) nor the database lookup yields a user gets the
placeholder username with its other fields still preserved. -/
theorem enhance_frame (dbGetUser : String → Option User)
    (entries : List LeaderboardEntry) (cache : String → Option User) :
    (enhanceLeaderboardWithUserDetails dbGetUser entries cache).1.length =
      entries.length ∧
    (∀ (i : Nat) (e' : EnhancedLeaderboardEntry),
      (enhanceLeaderboardWithUserDetails dbGetUser entries cache).1[i]? =
        some e' →
      ∃ e : LeaderboardEntry, entries[i]? = some e ∧
        e'.player_id = e.player_id ∧
        e'.rank = e.rank ∧ e'.score = e.score) ∧
    (∀ (i : Nat) (e : LeaderboardEntry), entries[i]? = some e →
      cache e.player_id = none →
      dbGetUser e.player_id = none →
      ((enhanceLeaderboardWithUserDetails dbGetUser entries cache).1[i]?).map
        EnhancedLeaderboardEntry.username = some "Unknown") := by
  induction entries generalizing cache with
  | nil =>
    refine ⟨rfl, ?_, ?_⟩
    · intro i e' hi
      simp [enhanceLeaderboardWithUserDetails] at hi
    · intro i e hi
      simp at hi
  | cons e rest ih =>
    cases hc : cache e.player_id with
    | some u =>
      have hmain := ih cache
      refine ⟨?_, ?_, ?_⟩
      · simp only [enhanceLeaderboardWithUserDetails, hc, List.length_cons]
        rw [hmain.1]
      · intro i e' hi
        cases i with
        | zero =>
          simp only [enhanceLeaderboardWithUserDetails, hc,
            List.getElem?_cons_zero] at hi
          rcases Option.some.inj hi with rfl
          exact ⟨e, by simp, rfl, rfl, rfl⟩
        | succ i =>
          simp only [enhanceLeaderboardWithUserDetails, hc,
            List.getElem?_cons_succ] at hi
          rcases hmain.2.1 i e' hi with ⟨e0, he0, h1, h2, h3⟩
          exact ⟨e0, by simpa using he0, h1, h2, h3⟩
      · intro i e0 hi hcache hdb
        cases i with
        | zero =>
          simp only [List.getElem?_cons_zero] at hi
          rcases Option.some.inj hi with rfl
          rw [hc] at hcache
          cases hcache
        | succ i =>
          simp only [List.getElem?_cons_succ] at hi
          simp only [enhanceLeaderboardWithUserDetails, hc,
            List.getElem?_cons_succ]
          exact hmain.2.2 i e0 hi hcache hdb
    | none =>
      cases hdb : dbGetUser e.player_id with
      | some u =>
        have hmain := ih fun k => if k = e.player_id then some u else cache k
        refine ⟨?_, ?_, ?_⟩
        · simp only [enhanceLeaderboardWithUserDetails, hc, hdb,
            List.length_cons]
          rw [hmain.1]
        · intro i e' hi
          cases i with
          | zero =>
            simp only [enhanceLeaderboardWithUserDetails, hc, hdb,
              List.getElem?_cons_zero] at hi
            rcases Option.some.inj hi with rfl
            exact ⟨e, by simp, rfl, rfl, rfl⟩
          | succ i =>
            simp only [enhanceLeaderboardWithUserDetails, hc, hdb,
              List.getElem?_cons_succ] at hi
            rcases hmain.2.1 i e' hi with ⟨e0, he0, h1, h2, h3⟩
            exact ⟨e0, by simpa using he0, h1, h2, h3⟩
        · intro i e0 hi hcache hdb0
          cases i with
          | zero =>
            simp only [List.getElem?_cons_zero] at hi
            rcases Option.some.inj hi with rfl
            rw [hdb] at hdb0
            cases hdb0
          | succ i =>
            simp only [List.getElem?_cons_succ] at hi
            simp only [enhanceLeaderboardWithUserDetails, hc, hdb,
              List.getElem?_cons_succ]
            apply hmain.2.2 i e0 hi ?_ hdb0
            have hne : e0.player_id ≠ e.player_id := by
              intro heq
              rw [heq, hdb] at hdb0
              cases hdb0
            simp only [if_neg hne]
            exact hcache
      | none =>
        have hmain := ih cache
        refine ⟨?_, ?_, ?_⟩
        · simp only [enhanceLeaderboardWithUserDetails, hc, hdb,
            List.length_cons]
          rw [hmain.1]
        · intro i e' hi
          cases i with
          | zero =>
            simp only [enhanceLeaderboardWithUserDetails, hc, hdb,
              List.getElem?_cons_zero] at hi
            rcases Option.some.inj hi with rfl
            exact ⟨e, by simp, rfl, rfl, rfl⟩
          | succ i =>
            simp only [enhanceLeaderboardWithUserDetails, hc, hdb,
              List.getElem?_cons_succ] at hi
            rcases hmain.2.1 i e' hi with ⟨e0, he0, h1, h2, h3⟩
            exact ⟨e0, by simpa using he0, h1, h2, h3⟩
        · intro i e0 hi hcache hdb0
          cases i with
          | zero =>
            simp only [List.getElem?_cons_zero] at hi
            rcases Option.some.inj hi with rfl
            simp only [enhanceLeaderboardWithUserDetails, hc, hdb,
              List.getElem?_cons_zero, Option.map_some']
            rfl
          | succ i =>
            simp only [List.getElem?_cons_succ] at hi
            simp only [enhanceLeaderboardWithUserDetails, hc, hdb,
              List.getElem?_cons_succ]
            exact hmain.2.2 i e0 hi hcache hdb0

/-- Witness for C10: a single entry with empty cache and a database
that knows no user is enriched with the placeholder username. -/
theorem enhance_frame_witness :
    ((enhanceLeaderboardWithUserDetails (fun _ => none) [⟨"p1", 1, 50⟩]
        (fun _ => none)).1[0]?).map EnhancedLeaderboardEntry.username =
      some "Unknown" :=
  (enhance_frame (fun _ => none) [⟨"p1", 1, 50⟩] (fun _ => none)).2.2 0
    ⟨"p1", 1, 50⟩ rfl rfl rfl

/-! ## Throttle and dedup gates -/

theorem proc_isSome_iff (dbGetUser : String → Option User) (w t : Int)
    (st : ProcState) :
    (processLeaderboardChange dbGetUser w t st).1.isSome ↔
      ((∀ tp, st.lastUpdate = some tp → w ≤ t - tp) ∧
       (∀ c, st.cached = some c →
         c.checksum ≠ generateChecksum (getTopPlayers st.board 10))) := by
  obtain ⟨bd, lu, cc, uc⟩ := st
  unfold processLeaderboardChange
  rcases lu with _ | tp <;> rcases cc with _ | c <;> dsimp only
  · exact iff_of_true rfl ⟨(fun tp h => by cases h), (fun c h => by cases h)⟩
  · rw [if_neg Bool.false_ne_true]
    split
    · rename_i hd
      simp only [decide_eq_true_eq] at hd
      refine iff_of_false (by simp) ?_
      intro h
      exact h.2 c rfl hd
    · rename_i hd
      simp only [decide_eq_true_eq] at hd
      refine iff_of_true rfl ⟨(fun tp h => by cases h), fun c2 h => ?_⟩
      rcases Option.some.inj h with rfl
      exact hd
  · split
    · rename_i hthr
      simp only [decide_eq_true_eq] at hthr
      refine iff_of_false (by simp) ?_
      intro h
      have := h.1 tp rfl
      omega
    · rename_i hthr
      simp only [decide_eq_true_eq] at hthr
      refine iff_of_true rfl ⟨fun tp2 h => ?_, (fun c2 h => by cases h)⟩
      rcases Option.some.inj h with rfl
      omega
  · split
    · rename_i hthr
      simp only [decide_eq_true_eq] at hthr
      refine iff_of_false (by simp) ?_
      intro h
      have := h.1 tp rfl
      omega
    · rename_i hthr
      simp only [decide_eq_true_eq] at hthr
      split
      · rename_i hd
        simp only [decide_eq_true_eq] at hd
        refine iff_of_false (by simp) ?_
        intro h
        exact h.2 c rfl hd
      · rename_i hd
        simp only [decide_eq_true_eq] at hd
        refine iff_of_true rfl ⟨fun tp2 h => ?_, fun c2 h => ?_⟩
        · rcases Option.some.inj h with rfl
          omega
        · rcases Option.some.inj h with rfl
          exact hd

theorem proc_publish_eq (dbGetUser : String → Option User) (w t : Int)
    (bd : ZSet) (lu : Option Int) (cc : Option LeaderboardUpdate)
    (uc : String → Option User)
    (h1 : ∀ tp, lu = some tp → w ≤ t - tp)
    (h2 : ∀ c, cc = some c →
      c.checksum ≠ generateChecksum (getTopPlayers bd 10)) :
    processLeaderboardChange dbGetUser w t ⟨bd, lu, cc, uc⟩ =
      (some ⟨(enhanceLeaderboardWithUserDetails dbGetUser
            (getTopPlayers bd 10) uc).1,
          t, generateChecksum (getTopPlayers bd 10),
          findChangedRankings
            (match cc with | some c => c.top10 | none => [])
            (getTopPlayers bd 10)⟩,
        ⟨bd, some t,
          some ⟨getTopPlayers bd 10, t, generateChecksum (getTopPlayers bd 10)⟩,
          (enhanceLeaderboardWithUserDetails dbGetUser
            (getTopPlayers bd 10) uc).2⟩) := by
  unfold processLeaderboardChange
  rcases lu with _ | tp <;> rcases cc with _ | c <;> dsimp only
  · rfl
  · have hc : ¬ (decide (c.checksum = generateChecksum (getTopPlayers bd 10)) = true) := by
      simp only [decide_eq_true_eq]
      exact h2 c rfl
    rw [if_neg Bool.false_ne_true, if_neg hc]
  · have ht : ¬ (decide (t - tp < w) = true) := by
      simp only [decide_eq_true_eq]
      have := h1 tp rfl
      omega
    rw [if_neg ht, if_neg Bool.false_ne_true]
  · have ht : ¬ (decide (t - tp < w) = true) := by
      simp only [decide_eq_true_eq]
      have := h1 tp rfl
      omega
    have hc : ¬ (decide (c.checksum = generateChecksum (getTopPlayers bd 10)) = true) := by
      simp only [decide_eq_true_eq]
      exact h2 c rfl
    rw [if_neg ht, if_neg hc]

theorem proc_publish_state (dbGetUser : String → Option User) (w t : Int)
    (st : ProcState)
    (h : (processLeaderboardChange dbGetUser w t st).1.isSome) :
    (processLeaderboardChange dbGetUser w t st).2.board = st.board ∧
    (processLeaderboardChange dbGetUser w t st).2.lastUpdate = some t ∧
    (processLeaderboardChange dbGetUser w t st).2.cached =
      some ⟨getTopPlayers st.board 10, t,
        generateChecksum (getTopPlayers st.board 10)⟩ := by
  obtain ⟨bd, lu, cc, uc⟩ := st
  have hg := (proc_isSome_iff dbGetUser w t ⟨bd, lu, cc, uc⟩).mp h
  rw [proc_publish_eq dbGetUser w t bd lu cc uc hg.1 hg.2]
  exact ⟨rfl, rfl, rfl⟩

/-- Claim C2: onChangeSignal publishes iff both gates pass — the
throttle gate (no last-published timestamp, or the elapsed time reaches
the window) and the dedup gate (no cached update, or its fingerprint
differs from the fresh snapshot's) — and after a publish at time t, a
second call within the window returns none, as does a call outside the
window whose underlying snapshot is unchanged (fingerprint match). -/
theorem processLeaderboardChange_gates (dbGetUser : String → Option User)
    (w t : Int) (st : ProcState) :
    ((processLeaderboardChange dbGetUser w t st).1.isSome ↔
      ((∀ tp, st.lastUpdate = some tp → w ≤ t - tp) ∧
       (∀ c, st.cached = some c →
         c.checksum ≠ generateChecksum (getTopPlayers st.board 10)))) ∧
    (∀ t2 : Int, (processLeaderboardChange dbGetUser w t st).1.isSome →
      t2 - t < w →
      (processLeaderboardChange dbGetUser w t2
        (processLeaderboardChange dbGetUser w t st).2).1 = none) ∧
    (∀ t2 : Int, (processLeaderboardChange dbGetUser w t st).1.isSome →
      w ≤ t2 - t →
      (processLeaderboardChange dbGetUser w t2
        (processLeaderboardChange dbGetUser w t st).2).1 = none) := by
  refine ⟨proc_isSome_iff dbGetUser w t st, ?_, ?_⟩
  · intro t2 hsome hlt
    rcases proc_publish_state dbGetUser w t st hsome with ⟨_, hlast, _⟩
    cases hres : (processLeaderboardChange dbGetUser w t2
        (processLeaderboardChange dbGetUser w t st).2).1 with
    | none => rfl
    | some ev =>
      exfalso
      have h2 := (proc_isSome_iff dbGetUser w t2
        (processLeaderboardChange dbGetUser w t st).2).mp (by rw [hres]; rfl)
      have := h2.1 t hlast
      omega
  · intro t2 hsome hge
    rcases proc_publish_state dbGetUser w t st hsome with ⟨hboard, _, hcached⟩
    cases hres : (processLeaderboardChange dbGetUser w t2
        (processLeaderboardChange dbGetUser w t st).2).1 with
    | none => rfl
    | some ev =>
      exfalso
      have h2 := (proc_isSome_iff dbGetUser w t2
        (processLeaderboardChange dbGetUser w t st).2).mp (by rw [hres]; rfl)
      have := h2.2 _ hcached
      rw [hboard] at this
      exact this rfl

/-- Witness for C2: on the demo board with no prior publish, the first
call at time 0 publishes and a second call 100ms later inside the
500ms window returns none. -/
theorem processLeaderboardChange_gates_witness :
    (processLeaderboardChange (fun _ => none) 500 100
      (processLeaderboardChange (fun _ => none) 500 0
        ⟨demoBoard, none, none, fun _ => none⟩).2).1 = none :=
  (processLeaderboardChange_gates (fun _ => none) 500 0
    ⟨demoBoard, none, none, fun _ => none⟩).2.1 100
    ((proc_isSome_iff (fun _ => none) 500 0
      ⟨demoBoard, none, none, fun _ => none⟩).mpr
      ⟨(fun tp h => by cases h), (fun c h => by cases h)⟩)
    (by omega)

/-! ## Flush, retries and the dead-letter path -/

theorem flushLoop_exhausted (sf : Nat → Bool) (dq : Bool) (now : String)
    (batch : List ScoreSubmission) (eff : FlushEffects)
    (h0 : sf 0 = true) (h1 : sf 1 = true) (h2 : sf 2 = true) :
    flushLoop sf dq now batch eff maxRetries 0 =
      saveToDeadLetterQueue dq now batch eff := by
  simp [flushLoop, maxRetries, h0, h1, h2]

theorem flushLoop_cases (sf : Nat → Bool) (dq : Bool) (now : String)
    (batch : List ScoreSubmission) (eff : FlushEffects) :
    flushLoop sf dq now batch eff maxRetries 0 =
        { eff with savedBatches := eff.savedBatches ++ [batch] } ∨
    flushLoop sf dq now batch eff maxRetries 0 =
        { eff with deadLetters :=
            eff.deadLetters ++ [⟨now, batch.length, batch⟩] } ∨
    (dq = true ∧ flushLoop sf dq now batch eff maxRetries 0 =
        { eff with criticalLost := eff.criticalLost ++ [batch] }) := by
  cases h0 : sf 0 <;> cases h1 : sf 1 <;> cases h2 : sf 2 <;> cases dq <;>
    simp [flushLoop, maxRetries, h0, h1, h2, saveToDeadLetterQueue,
      dbSaveToDeadLetterQueue]

theorem flushBatch_run (sf : Nat → Bool) (dq : Bool) (now : String)
    (batch : List ScoreSubmission) (eff : FlushEffects) (hne : batch ≠ []) :
    flushBatch sf dq now ⟨batch, false⟩ eff =
      (⟨[], false⟩, flushLoop sf dq now batch eff maxRetries 0) := by
  unfold flushBatch
  have hcond : (List.isEmpty batch || false) = false := by
    cases batch with
    | nil => exact absurd rfl hne
    | cons a l => rfl
  rw [hcond, if_neg Bool.false_ne_true]

/-- Claim C6 counterexample: a one-entry batch whose sink calls fail
all three times produces a dead-letter record whose only numeric field
is count = 1 (the number of entries); no field of the record equals the
attempt count 3. -/
theorem deadLetter_no_attempt_count :
    (flushBatch (fun _ => true) false "t0" ⟨[demoSubmission], false⟩
        ⟨[], [], []⟩).2.deadLetters = [⟨"t0", 1, [demoSubmission]⟩] ∧
    ¬ ∀ r ∈ (flushBatch (fun _ => true) false "t0" ⟨[demoSubmission], false⟩
        ⟨[], [], []⟩).2.deadLetters, r.count = 3 := by decide

/-- Claim C6 (amended): a non-empty batch whose sink calls fail exactly
maxRetries (= 3) times appends exactly one DeadLetterRecord, containing
all original entries in their original order; the record carries the
write timestamp and count = number of entries — it has no attempt-count
field (the three attempts are made but not recorded). -/
theorem flushBatch_exhausted (sf : Nat → Bool) (now : String)
    (batch : List ScoreSubmission) (eff : FlushEffects)
    (h0 : sf 0 = true) (h1 : sf 1 = true) (h2 : sf 2 = true)
    (hne : batch ≠ []) :
    (flushBatch sf false now ⟨batch, false⟩ eff).2 =
      { eff with deadLetters :=
          eff.deadLetters ++ [⟨now, batch.length, batch⟩] } := by
  rw [flushBatch_run sf false now batch eff hne]
  show flushLoop sf false now batch eff maxRetries 0 = _
  rw [flushLoop_exhausted sf false now batch eff h0 h1 h2]
  simp [saveToDeadLetterQueue, dbSaveToDeadLetterQueue]

/-- Witness for the amended C6: the concrete one-entry batch with an
always-failing sink lands as one dead-letter record with count 1. -/
theorem flushBatch_exhausted_witness :
    (flushBatch (fun _ => true) false "t0" ⟨[demoSubmission], false⟩
        ⟨[], [], []⟩).2 = ⟨[], [⟨"t0", 1, [demoSubmission]⟩], []⟩ := by
  have h := flushBatch_exhausted (fun _ => true) "t0" [demoSubmission]
    ⟨[], [], []⟩ rfl rfl rfl (by decide)
  simpa using h

/-- Claim C7 counterexample: when every sink attempt fails and the
dead-letter write itself also fails, the batch ends in none of the
three claimed states — not saved, not retried further, and not in the
dead-letter queue; it is lost (and only loudly logged). -/
theorem flushBatch_critical_loss :
    (flushBatch (fun _ => true) true "t0" ⟨[demoSubmission], false⟩
        ⟨[], [], []⟩).2.savedBatches = [] ∧
    (flushBatch (fun _ => true) true "t0" ⟨[demoSubmission], false⟩
        ⟨[], [], []⟩).2.deadLetters = [] ∧
    (flushBatch (fun _ => true) true "t0" ⟨[demoSubmission], false⟩
        ⟨[], [], []⟩).2.criticalLost = [[demoSubmission]] := by decide

/-- Claim C7 (amended): a non-empty batch handed to the sink always
resolves to exactly one of three terminal states — saved, dead-lettered
(when the overflow write works), or loudly-surfaced critical loss (only
possible when the overflow write itself fails); when the overflow sink
works, the batch resolves to a save or a DeadLetterRecord.  It is never
silently dropped. -/
theorem flushBatch_no_silent_drop (sf : Nat → Bool) (dq : Bool)
    (now : String) (batch : List ScoreSubmission) (eff : FlushEffects)
    (hne : batch ≠ []) :
    ((flushBatch sf dq now ⟨batch, false⟩ eff).2 =
        { eff with savedBatches := eff.savedBatches ++ [batch] } ∨
     (flushBatch sf dq now ⟨batch, false⟩ eff).2 =
        { eff with deadLetters :=
            eff.deadLetters ++ [⟨now, batch.length, batch⟩] } ∨
     (dq = true ∧ (flushBatch sf dq now ⟨batch, false⟩ eff).2 =
        { eff with criticalLost := eff.criticalLost ++ [batch] })) ∧
    (dq = false →
      (flushBatch sf dq now ⟨batch, false⟩ eff).2 =
        { eff with savedBatches := eff.savedBatches ++ [batch] } ∨
      (flushBatch sf dq now ⟨batch, false⟩ eff).2 =
        { eff with deadLetters :=
            eff.deadLetters ++ [⟨now, batch.length, batch⟩] }) := by
  rw [flushBatch_run sf dq now batch eff hne]
  refine ⟨flushLoop_cases sf dq now batch eff, ?_⟩
  intro hdq
  rcases flushLoop_cases sf dq now batch eff with h | h | ⟨hd, _⟩
  · exact Or.inl h
  · exact Or.inr h
  · rw [hdq] at hd
    cases hd

/-- Witness for the amended C7: with a sink that succeeds immediately,
the one-entry batch resolves to a successful save. -/
theorem flushBatch_no_silent_drop_witness :
    (flushBatch (fun _ => false) false "t0" ⟨[demoSubmission], false⟩
        ⟨[], [], []⟩).2 = ⟨[[demoSubmission]], [], []⟩ ∨
    (flushBatch (fun _ => false) false "t0" ⟨[demoSubmission], false⟩
        ⟨[], [], []⟩).2 = ⟨[], [⟨"t0", 1, [demoSubmission]⟩], []⟩ := by
  have h := (flushBatch_no_silent_drop (fun _ => false) false "t0"
    [demoSubmission] ⟨[], [], []⟩ (by decide)).2 rfl
  simpa using h

/-! ## Broadcast fan-out and registry self-healing -/

theorem broadcast_delivered_failed (clients : List Client) :
    (broadcast clients).1 + (broadcast clients).2.1 = clients.length := by
  induction clients with
  | nil => rfl
  | cons c rest ih =>
    simp only [broadcast]
    cases hro : c.readyOpen <;> cases hsr : c.sendRaises <;>
      simp only [if_true, if_false, Bool.false_eq_true, ite_true, ite_false,
        List.length_cons] <;> omega

theorem broadcast_remaining (clients : List Client) :
    (broadcast clients).2.2 = clients.filter (fun c => c.readyOpen) := by
  induction clients with
  | nil => rfl
  | cons c rest ih =>
    simp only [broadcast]
    cases hro : c.readyOpen <;> cases hsr : c.sendRaises <;>
      simp [hro, hsr, ih, List.filter_cons]

theorem broadcast_delivered (clients : List Client) :
    (broadcast clients).1 =
      (clients.filter (fun c => c.readyOpen && !c.sendRaises)).length := by
  induction clients with
  | nil => rfl
  | cons c rest ih =>
    simp only [broadcast]
    cases hro : c.readyOpen <;> cases hsr : c.sendRaises <;>
      simp [hro, hsr, ih, List.filter_cons]

theorem heartbeatTargets_not_ready {c : Client} (clients : List Client)
    (h : c.readyOpen = false) : c ∉ heartbeatTargets clients := by
  unfold heartbeatTargets
  intro hmem
  rcases List.mem_filter.mp hmem with ⟨_, hready⟩
  rw [h] at hready
  cases hready

/-- Claim C8 counterexample: a single registered subscriber whose
connection is OPEN but whose send throws is counted as failed
(delivered 0, failed 1) yet is not removed from the registry by the
broadcast call, and a subsequent heartbeat still targets it. -/
theorem broadcast_raise_not_removed :
    broadcast [⟨0, true, true⟩] = (0, 1, [⟨0, true, true⟩]) ∧
    (⟨0, true, true⟩ : Client) ∈
      heartbeatTargets (broadcast [⟨0, true, true⟩]).2.2 := by decide

/-- Claim C8 (amended): broadcast attempts delivery to every subscriber
registered at the start of the call, and delivered + failed covers them
all; a subscriber whose connection is not OPEN is counted failed and
removed in the same call (so a subsequent heartbeat no longer targets
it), while a subscriber whose send raises is counted failed but remains
registered; delivered counts exactly the OPEN subscribers whose send
does not raise. -/
theorem broadcast_counts (clients : List Client) :
    (broadcast clients).1 + (broadcast clients).2.1 = clients.length ∧
    (broadcast clients).2.2 = clients.filter (fun c => c.readyOpen) ∧
    (broadcast clients).1 =
      (clients.filter (fun c => c.readyOpen && !c.sendRaises)).length ∧
    (∀ c ∈ clients, c.readyOpen = false →
      c ∉ heartbeatTargets (broadcast clients).2.2) :=
  ⟨broadcast_delivered_failed clients, broadcast_remaining clients,
    broadcast_delivered clients,
    fun _ _ h => heartbeatTargets_not_ready _ h⟩

/-- Witness for the amended C8: of three subscribers with one broken
connection, the broken one is no longer targeted by a subsequent
heartbeat. -/
theorem broadcast_counts_witness :
    (⟨2, false, false⟩ : Client) ∉ heartbeatTargets
      (broadcast [⟨0, true, false⟩, ⟨1, true, false⟩, ⟨2, false, false⟩]).2.2 :=
  (broadcast_counts [⟨0, true, false⟩, ⟨1, true, false⟩,
    ⟨2, false, false⟩]).2.2.2 ⟨2, false, false⟩ (by decide) rfl

/-- Witness for the amended C9: instantiated on the history
upsert(a,1); remove(a), whose member flag is false, the rank lookup
returns none. -/
theorem getPlayerRank_none_iff_not_member_witness :
    getPlayerRank (runOps [StoreOp.upsert "a" 1, StoreOp.remove "a"]) "a" =
      none :=
  (getPlayerRank_none_iff_not_member [StoreOp.upsert "a" 1, StoreOp.remove "a"]
    "a").mpr (by decide)
